import Mathlib

/-!
Verification development for a BAM/CRAM cell-barcode counter
(`src/main.rs`).  The program parses command-line arguments, iterates the
records of an alignment container (optionally capped by `-n`/`--limit`),
looks up the 2-byte auxiliary tag `CB` on each decoded record, tallies the
string-typed values in a hash map, sorts the tally by barcode and writes
one line per barcode (`{:>7} {}` format) to the file `reads_per_barcode`,
then prints a summary.

The embedding below translates the pipeline into pure Lean functions:
the record stream becomes a list of `Except`-valued items, the hash map
becomes an insertion-ordered association list (its nondeterministic
iteration order is treated in the determinism theorem), and the process
exit / stderr effects become explicit fields of the result.
-/

namespace ReadCounter

/-- The tagged union of auxiliary-field value types
(`rust_htslib::bam::record::Aux`).  Floating-point payloads are carried as
their raw bit patterns; the program never inspects them. -/
inductive AuxValue where
  | char (c : Char)
  | i8 (n : Int)
  | u8 (n : Nat)
  | i16 (n : Int)
  | u16 (n : Nat)
  | i32 (n : Int)
  | u32 (n : Nat)
  | float (bits : Nat)
  | double (bits : Nat)
  | string (s : String)
  | hexByteArray (s : String)
  | arrayI8 (xs : List Int)
  | arrayU8 (xs : List Nat)
  | arrayI16 (xs : List Int)
  | arrayU16 (xs : List Nat)
  | arrayI32 (xs : List Int)
  | arrayU32 (xs : List Nat)
  | arrayFloat (bits : List Nat)
  deriving Repr, DecidableEq

/-- Errors an auxiliary-field lookup (`record.aux`) can return:
`BamAuxTagNotFound` when the tag is absent, or any other htslib error
(e.g. a malformed/truncated auxiliary field). -/
inductive AuxError where
  | bamAuxTagNotFound
  | other (description : String)
  deriving Repr, DecidableEq

/-- One auxiliary field slot of a decoded record: its 2-byte tag together
with either its decoded value or the parse failure raised when the field's
binary encoding is malformed. -/
structure AuxField where
  tag : String
  value : Except String AuxValue
  deriving Repr

/-- A decoded alignment record, reduced to the data this program reads:
its auxiliary field set. -/
structure BamRecord where
  auxFields : List AuxField
  deriving Repr

/-- `record.aux(tag)`: look up the auxiliary field named `tag`.  Absent tag
gives `Err(BamAuxTagNotFound)`; a present but malformed field gives some
other error; otherwise the decoded value. -/
def BamRecord.aux (r : BamRecord) (tag : String) : Except AuxError AuxValue :=
  match r.auxFields.find? (fun f => f.tag = tag) with
  | none => .error .bamAuxTagNotFound
  | some f =>
    match f.value with
    | .ok v => .ok v
    | .error d => .error (.other d)

/-- One item of the record stream: a decoded record or a per-record decode
error (`Result<bam::Record, HtslibError>`), the error reduced to its
display string. -/
abbrev RecordResult := Except String BamRecord

/-- The Tag Extractor: the value-type discrimination the main loop performs
on the result of `record.aux(b"CB")` — an identifier is produced if and
only if the tag is present and string-typed. -/
def extract (record : BamRecord) (tag : String) : Option String :=
  match record.aux tag with
  | .ok (.string s) => some s
  | _ => none

/-- Whether a stream item contributes to the tally: a successfully decoded
record whose `CB` tag extraction returns `Some`. -/
def extractsBarcode (rr : RecordResult) : Bool :=
  match rr with
  | .ok record => (extract record "CB").isSome
  | .error _ => false

/-- State threaded through the main loop: the contents of the
`barcode_counts` hash map (as an insertion-ordered association list) and
the lines written to stderr for per-record decode errors. -/
structure LoopState where
  counts : List (String × Nat)
  stderrLines : List String
  deriving Repr, DecidableEq

/-- `*barcode_counts.entry(bc_str.to_string()).or_insert(0) += 1`:
increment the count of `bc`, inserting it with `0` first when absent
(hence a fresh key enters with count `0 + 1`). -/
def bumpCount : List (String × Nat) → String → List (String × Nat)
  | [], bc => [(bc, 0 + 1)]
  | (k, c) :: rest, bc =>
    if k = bc then (k, c + 1) :: rest else (k, c) :: bumpCount rest bc

/-- One iteration of the main `for record_result in limited_iterator` loop:
a decoded record with a string-typed `CB` tag bumps the tally; an absent
tag, any other value type, or any other aux-lookup error does nothing; a
decode error is reported to stderr and skipped. -/
def processRecord (st : LoopState) (recordResult : RecordResult) : LoopState :=
  match recordResult with
  | .ok record =>
    match record.aux "CB" with
    | .ok (.string bcStr) => { st with counts := bumpCount st.counts bcStr }
    | .error .bamAuxTagNotFound => st
    | _ => st
  | .error e =>
    { st with stderrLines :=
        st.stderrLines ++ ["Error reading BAM/CRAM record: " ++ e ++ ". Skipping."] }

/-- The conditional `take(limit)` applied to the record iterator when
`max_records` is set. -/
def limitRecords (maxRecords : Option Nat) (records : List RecordResult) :
    List RecordResult :=
  match maxRecords with
  | some limit => records.take limit
  | none => records

/-- The whole accumulation loop, starting from the empty map and empty
stderr. -/
def runLoop (records : List RecordResult) : LoopState :=
  records.foldl processRecord ⟨[], []⟩

/-- `sorted_barcodes.sort_unstable_by(|a, b| a.0.cmp(&b.0))`: sort the
(barcode, count) pairs by ascending barcode. -/
def sortBarcodes (l : List (String × Nat)) : List (String × Nat) :=
  l.mergeSort (fun a b => a.1 ≤ b.1)

/-- Rust's `{:>7}` formatting: right-align in a field of (minimum) width
seven, padding with spaces on the left. -/
def padLeft7 (s : String) : String :=
  String.mk (List.replicate (7 - s.length) ' ') ++ s

/-- One output line, without its terminating newline:
`writeln!(writer, "{:>7} {}", count, barcode)`. -/
def formatLine (barcode : String) (count : Nat) : String :=
  padLeft7 (toString count) ++ " " ++ barcode

/-- The full content of the `reads_per_barcode` output file. -/
def artifactOf (sorted : List (String × Nat)) : String :=
  String.join (sorted.map (fun p => formatLine p.1 p.2 ++ "\n"))

/-- `total_barcoded_reads`: the sum of the counts, accumulated while the
sorted tally is written out. -/
def totalBarcodedReadsOf (sorted : List (String × Nat)) : Nat :=
  (sorted.map Prod.snd).sum

/-- The observable outcome of a run that reached the processing loop: the
output artifact's bytes, the two summary numbers, the per-record error
reports, and whether `main` returned `Ok(())`. -/
structure RunResult where
  artifact : String
  uniqueBarcodes : Nat
  totalBarcodedReads : Nat
  stderrLines : List String
  exitOk : Bool
  deriving Repr, DecidableEq

/-- The sorted tally produced by a run over `records` with cap
`maxRecords`. -/
def sortedTally (records : List RecordResult) (maxRecords : Option Nat) :
    List (String × Nat) :=
  sortBarcodes (runLoop (limitRecords maxRecords records)).counts

/-- The decode–extract–tally–emit pipeline of `main`, from the record
stream and the parsed cap to the observable outcome. -/
def runPipeline (records : List RecordResult) (maxRecords : Option Nat) :
    RunResult :=
  let st := runLoop (limitRecords maxRecords records)
  let sorted := sortBarcodes st.counts
  { artifact := artifactOf sorted
    uniqueBarcodes := sorted.length
    totalBarcodedReads := totalBarcodedReadsOf sorted
    stderrLines := st.stderrLines
    exitOk := true }

/-- ASCII-digit test used by `str::parse::<usize>`. -/
def isAsciiDigit (c : Char) : Bool :=
  decide ('0' ≤ c) && decide (c ≤ '9')

/-- Decimal value of a digit string. -/
def digitsToNat (cs : List Char) : Nat :=
  cs.foldl (fun acc c => acc * 10 + (c.toNat - '0'.toNat)) 0

/-- `val_str.parse::<usize>()`: an optional leading `+`, then one or more
ASCII digits, rejecting values that overflow a 64-bit `usize`.  Returns
`none` exactly when Rust's parse returns `Err`. -/
def parseUsize (s : String) : Option Nat :=
  let cs :=
    match s.data with
    | '+' :: rest => rest
    | cs => cs
  if cs.isEmpty then none
  else if cs.all isAsciiDigit then
    let n := digitsToNat cs
    if n < 2 ^ 64 then some n else none
  else none

/-- `arg.starts_with('-')`: whether the argument's first character is a
dash (so it is treated as a flag rather than a positional argument). -/
def startsWithDash (s : String) : Bool :=
  match s.data with
  | [] => false
  | c :: _ => c = '-'

/-- Outcome of the argument-parsing `while let` loop: either the collected
positional arguments and cap, or a `process::exit(1)` with the message
printed to stderr. -/
inductive ParsedArgs where
  | parsed (input : Option String) (refFasta : Option String) (maxRecords : Option Nat)
  | usageExit (stderrMsg : String)
  deriving Repr, DecidableEq

/-- The argument-parsing loop over `args.iter().skip(1)`, carrying the
`input_path_str` / `ref_fasta_path_str` / `max_records` accumulators. -/
def parseArgs : List String → Option String → Option String → Option Nat → ParsedArgs
  | [], input, refFasta, maxRecords => .parsed input refFasta maxRecords
  | arg :: rest, input, refFasta, maxRecords =>
    if arg = "-n" ∨ arg = "--limit" then
      match rest with
      | valStr :: rest2 =>
        match parseUsize valStr with
        | some n => parseArgs rest2 input refFasta (some n)
        | none =>
          .usageExit ("Error: --limit value '" ++ valStr ++
            "' is not a valid positive integer.")
      | [] => .usageExit "Error: --limit flag requires a number."
    else if startsWithDash arg then
      .usageExit ("Error: Unknown flag '" ++ arg ++ "'")
    else
      match input with
      | none => parseArgs rest (some arg) refFasta maxRecords
      | some _ =>
        match refFasta with
        | none => parseArgs rest input (some arg) maxRecords
        | some _ => .usageExit "Error: Too many positional arguments provided."

/-- Outcome of `main` up to (and excluding) opening the container: either
a fatal exit with code 1 before any record is processed, or entry into the
processing phase with the collected input path, optional reference path
and optional cap. -/
inductive SetupOutcome where
  | exit1 (stderrMsg : String)
  | proceed (input : String) (refFasta : Option String) (maxRecords : Option Nat)
  deriving Repr, DecidableEq

/-- `main` from `env::args()` to the reader setup: the `args.len() < 2`
usage check, the parsing loop, and the missing-input check.  `argv`
includes the program name at position 0. -/
def mainSetup (argv : List String) : SetupOutcome :=
  if argv.length < 2 then .exit1 "usage"
  else
    match parseArgs argv.tail none none none with
    | .usageExit msg => .exit1 msg
    | .parsed none _ _ => .exit1 "Error: Missing required input BAM/CRAM file."
    | .parsed (some input) refFasta maxRecords => .proceed input refFasta maxRecords

/-- Association-list lookup of a barcode's current count (0 when the key
is absent), describing the hash map's content. -/
def countOf : List (String × Nat) → String → Nat
  | [], _ => 0
  | (k, c) :: rest, bc => if k = bc then c else countOf rest bc

/-- The identifier a stream item contributes, if any: `none` for decode
errors and for records whose `CB` extraction yields nothing. -/
def extractOf (rr : RecordResult) : Option String :=
  match rr with
  | .ok record => extract record "CB"
  | .error _ => none

/-- The effect of one loop iteration on the tally alone. -/
def countsStep (l : List (String × Nat)) (rr : RecordResult) : List (String × Nat) :=
  match extractOf rr with
  | some s => bumpCount l s
  | none => l

/-- The stderr line one stream item produces, if any: only per-record
decode errors are ever reported. -/
def reportOf (rr : RecordResult) : Option String :=
  match rr with
  | .ok _ => none
  | .error e => some ("Error reading BAM/CRAM record: " ++ e ++ ". Skipping.")

/-- All stderr lines produced by a record stream. -/
def reports (rs : List RecordResult) : List String :=
  rs.filterMap reportOf

/-- Strict key order on tally entries.  It is antisymmetric (vacuously, two
entries cannot each have the strictly smaller key), which makes a sorted
permutation of a duplicate-free tally unique. -/
instance : IsAntisymm (String × Nat) (fun a b => a.1 < b.1) :=
  ⟨fun _ _ h1 h2 => absurd (h1.trans h2) (lt_irrefl _)⟩

/-- Sample stream item: a record whose `CB` tag holds the string `AAAA`. -/
def recAAAA : RecordResult := .ok ⟨[⟨"CB", .ok (.string "AAAA")⟩]⟩

/-- Sample stream item: a record whose `CB` tag holds the string `CCCC`. -/
def recCCCC : RecordResult := .ok ⟨[⟨"CB", .ok (.string "CCCC")⟩]⟩

/-- Sample record with no auxiliary fields at all (no `CB` tag). -/
def recNoTag : BamRecord := ⟨[]⟩

/-- Sample record whose `CB` tag holds an integer instead of a string. -/
def recIntCB : BamRecord := ⟨[⟨"CB", .ok (.i32 7)⟩]⟩

/-- Sample record whose `CB` auxiliary field is malformed, so that the
lookup fails with an error other than tag-not-found. -/
def recBadCB : BamRecord := ⟨[⟨"CB", .error "truncated aux"⟩]⟩

/-! ### Basic facts about the tally update -/

theorem extractsBarcode_eq (rr : RecordResult) :
    extractsBarcode rr = (extractOf rr).isSome := by
  cases rr <;> rfl

theorem bumpCount_sum (l : List (String × Nat)) (bc : String) :
    ((bumpCount l bc).map Prod.snd).sum = (l.map Prod.snd).sum + 1 := by
  induction l with
  | nil => simp [bumpCount]
  | cons p rest ih =>
    obtain ⟨k, c⟩ := p
    by_cases h : k = bc <;> simp [bumpCount, h, ih] <;> omega

theorem bumpCount_of_not_mem (l : List (String × Nat)) (bc : String)
    (h : bc ∉ l.map Prod.fst) : bumpCount l bc = l ++ [(bc, 1)] := by
  induction l with
  | nil => rfl
  | cons p rest ih =>
    obtain ⟨k, c⟩ := p
    simp only [List.map_cons, List.mem_cons] at h
    push_neg at h
    simp [bumpCount, Ne.symm h.1, ih h.2]

theorem bumpCount_keys_of_mem (l : List (String × Nat)) (bc : String)
    (h : bc ∈ l.map Prod.fst) :
    (bumpCount l bc).map Prod.fst = l.map Prod.fst := by
  induction l with
  | nil => simp at h
  | cons p rest ih =>
    obtain ⟨k, c⟩ := p
    by_cases hk : k = bc
    · simp [bumpCount, hk]
    · simp only [List.map_cons, List.mem_cons] at h
      rcases h with h | h

      · exact absurd h.symm hk
      · simp [bumpCount, hk, ih h]

theorem mem_bumpCount_keys (l : List (String × Nat)) (bc k : String) :
    k ∈ (bumpCount l bc).map Prod.fst ↔ k ∈ l.map Prod.fst ∨ k = bc := by
  by_cases hm : bc ∈ l.map Prod.fst
  · rw [bumpCount_keys_of_mem l bc hm]
    constructor
    · exact Or.inl
    · rintro (h | rfl)
      · exact h
      · exact hm
  · rw [bumpCount_of_not_mem l bc hm]
    simp

theorem bumpCount_nodup (l : List (String × Nat)) (bc : String)
    (h : (l.map Prod.fst).Nodup) : ((bumpCount l bc).map Prod.fst).Nodup := by
  by_cases hm : bc ∈ l.map Prod.fst
  · rw [bumpCount_keys_of_mem l bc hm]; exact h
  · rw [bumpCount_of_not_mem l bc hm]
    simp only [List.map_append, List.map_cons, List.map_nil]
    rw [List.nodup_append]
    refine ⟨h, List.nodup_singleton _, ?_⟩
    intro a ha hb
    simp only [List.mem_singleton] at hb
    subst hb
    exact hm ha

theorem bumpCount_pos (l : List (String × Nat)) (bc : String)
    (h : ∀ p ∈ l, 1 ≤ p.2) : ∀ p ∈ bumpCount l bc, 1 ≤ p.2 := by
  induction l with
  | nil =>
    intro p hp
    simp only [bumpCount, List.mem_singleton] at hp
    subst hp
    exact le_refl 1
  | cons q rest ih =>
    obtain ⟨k, c⟩ := q
    intro p hp
    by_cases hk : k = bc
    · simp only [bumpCount, if_pos hk, List.mem_cons] at hp
      rcases hp with rfl | hp
      · simp
      · exact h p (List.mem_cons_of_mem _ hp)
    · simp only [bumpCount, if_neg hk, List.mem_cons] at hp
      rcases hp with rfl | hp
      · exact h (k, c) (List.mem_cons_self _ _)
      · exact ih (fun q hq => h q (List.mem_cons_of_mem _ hq)) p hp

theorem countOf_bumpCount (l : List (String × Nat)) (bc k : String) :
    countOf (bumpCount l bc) k = if k = bc then countOf l bc + 1 else countOf l k := by
  induction l with
  | nil =>
    by_cases h : k = bc
    · subst h; simp [bumpCount, countOf]
    · simp [bumpCount, countOf, h, Ne.symm h]
  | cons p rest ih =>
    obtain ⟨k0, c⟩ := p
    by_cases h0 : k0 = bc
    · subst h0
      by_cases hk : k = k0
      · subst hk; simp [bumpCount, countOf]
      · simp [bumpCount, countOf, hk, Ne.symm hk]
    · by_cases hk : k = k0
      · subst hk
        simp [bumpCount, countOf, h0]
      · simp [bumpCount, countOf, h0, Ne.symm hk, ih]

/-! ### The loop body, split into its tally effect and its stderr effect -/

theorem processRecord_eq (st : LoopState) (rr : RecordResult) :
    processRecord st rr
      = ⟨countsStep st.counts rr, st.stderrLines ++ (reportOf rr).toList⟩ := by
  obtain ⟨counts, stderrLines⟩ := st
  cases rr with
  | error e => rfl
  | ok r =>
    simp only [processRecord, countsStep, extractOf, extract, reportOf,
      Option.toList, List.append_nil]
    cases h : r.aux "CB" with
    | ok v => cases v <;> simp [h]
    | error err => cases err <;> simp [h]

theorem foldl_processRecord_eq (rs : List RecordResult) (st : LoopState) :
    rs.foldl processRecord st
      = ⟨rs.foldl countsStep st.counts, st.stderrLines ++ reports rs⟩ := by
  induction rs generalizing st with
  | nil =>
    obtain ⟨counts, stderrLines⟩ := st
    simp [reports]
  | cons rr rs ih =>
    rw [List.foldl_cons, processRecord_eq, ih, List.foldl_cons]
    simp only [reports, List.filterMap_cons]
    cases h : reportOf rr <;> simp [List.append_assoc]

theorem runLoop_counts (rs : List RecordResult) :
    (runLoop rs).counts = rs.foldl countsStep [] := by
  rw [runLoop, foldl_processRecord_eq]

theorem runLoop_stderr (rs : List RecordResult) :
    (runLoop rs).stderrLines = reports rs := by
  rw [runLoop, foldl_processRecord_eq]
  simp

/-! ### Facts about the pure tally fold -/

theorem foldl_countsStep_sum (rs : List RecordResult) (l : List (String × Nat)) :
    ((rs.foldl countsStep l).map Prod.snd).sum
      = (l.map Prod.snd).sum + (rs.filterMap extractOf).length := by
  induction rs generalizing l with
  | nil => simp
  | cons rr rs ih =>
    rw [List.foldl_cons, List.filterMap_cons]
    cases h : extractOf rr with
    | none => simp [countsStep, h, ih]
    | some s =>
      simp only [countsStep, h, ih, bumpCount_sum, List.length_cons]
      omega

theorem foldl_countsStep_nodup (rs : List RecordResult) (l : List (String × Nat))
    (h : (l.map Prod.fst).Nodup) :
    ((rs.foldl countsStep l).map Prod.fst).Nodup := by
  induction rs generalizing l with
  | nil => exact h
  | cons rr rs ih =>
    rw [List.foldl_cons]
    cases hx : extractOf rr with
    | none => simpa [countsStep, hx] using ih l h
    | some s => simpa [countsStep, hx] using ih _ (bumpCount_nodup l s h)

theorem foldl_countsStep_pos (rs : List RecordResult) (l : List (String × Nat))
    (h : ∀ p ∈ l, 1 ≤ p.2) :
    ∀ p ∈ rs.foldl countsStep l, 1 ≤ p.2 := by
  induction rs generalizing l with
  | nil => exact h
  | cons rr rs ih =>
    rw [List.foldl_cons]
    cases hx : extractOf rr with
    | none => simpa [countsStep, hx] using ih l h
    | some s => simpa [countsStep, hx] using ih _ (bumpCount_pos l s h)

theorem foldl_countsStep_mem (rs : List RecordResult) (l : List (String × Nat))
    (k : String) :
    k ∈ (rs.foldl countsStep l).map Prod.fst
      ↔ k ∈ l.map Prod.fst ∨ k ∈ rs.filterMap extractOf := by
  induction rs generalizing l with
  | nil => simp
  | cons rr rs ih =>
    rw [List.foldl_cons, List.filterMap_cons]
    cases hx : extractOf rr with
    | none => simp [countsStep, hx, ih]
    | some s =>
      simp only [countsStep, hx, ih, mem_bumpCount_keys, List.mem_cons]
      tauto

theorem foldl_countsStep_of_none (rs : List RecordResult) (l : List (String × Nat))
    (h : ∀ rr ∈ rs, extractOf rr = none) :
    rs.foldl countsStep l = l := by
  induction rs generalizing l with
  | nil => rfl
  | cons rr rs ih =>
    rw [List.foldl_cons]
    have h0 : extractOf rr = none := h rr (List.mem_cons_self _ _)
    rw [show countsStep l rr = l by simp [countsStep, h0]]
    exact ih l (fun x hx => h x (List.mem_cons_of_mem _ hx))

/-! ### Facts about the final sort -/

theorem sortBarcodes_perm (l : List (String × Nat)) : (sortBarcodes l).Perm l :=
  List.mergeSort_perm l _

theorem sortBarcodes_nil : sortBarcodes [] = [] :=
  (sortBarcodes_perm []).eq_nil

theorem sortBarcodes_sorted (l : List (String × Nat)) :
    List.Pairwise (fun a b : String × Nat => a.1 ≤ b.1) (sortBarcodes l) := by
  have h := @List.sorted_mergeSort (String × Nat)
    (fun a b : String × Nat => decide (a.1 ≤ b.1))
    (fun a b c hab hbc => by
      simp only [decide_eq_true_eq] at hab hbc ⊢
      exact le_trans hab hbc)
    (fun a b => by
      simp only [Bool.or_eq_true, decide_eq_true_eq]
      exact le_total a.1 b.1)
    l
  exact h.imp (fun hab => by simpa using hab)

theorem sortBarcodes_strict (l : List (String × Nat))
    (h : (l.map Prod.fst).Nodup) :
    List.Pairwise (fun a b : String × Nat => a.1 < b.1) (sortBarcodes l) := by
  have hperm : ((sortBarcodes l).map Prod.fst).Perm (l.map Prod.fst) :=
    (sortBarcodes_perm l).map Prod.fst
  have hnd : ((sortBarcodes l).map Prod.fst).Nodup := hperm.nodup_iff.mpr h
  have hne : List.Pairwise (fun a b : String × Nat => a.1 ≠ b.1) (sortBarcodes l) :=
    List.pairwise_map.mp hnd
  exact ((sortBarcodes_sorted l).and hne).imp
    (fun hab => lt_of_le_of_ne hab.1 hab.2)

theorem sortBarcodes_eq_of_perm (l₁ l₂ : List (String × Nat))
    (hp : l₁.Perm l₂) (hnd : (l₁.map Prod.fst).Nodup) :
    sortBarcodes l₁ = sortBarcodes l₂ := by
  have hnd₂ : (l₂.map Prod.fst).Nodup := ((hp.map Prod.fst).nodup_iff).mp hnd
  refine @List.eq_of_perm_of_sorted (String × Nat)
    (fun a b : String × Nat => a.1 < b.1) _ _ _
    ?_ (sortBarcodes_strict l₁ hnd) (sortBarcodes_strict l₂ hnd₂)
  exact ((sortBarcodes_perm l₁).trans hp).trans (sortBarcodes_perm l₂).symm

theorem filterMap_extractOf_length (rs : List RecordResult) :
    (rs.filterMap extractOf).length = (rs.filter extractsBarcode).length := by
  induction rs with
  | nil => rfl
  | cons rr rs ih =>
    rw [List.filterMap_cons, List.filter_cons, extractsBarcode_eq]
    cases h : extractOf rr <;> simp [h, ih]

/-! ### The claims -/

/-- C1: the total reported at the end (the sum of all counts in the
ordered tally, printed as total barcoded reads) equals the number of
records of the (possibly capped) stream for which the 2-byte `CB` tag
extraction returned `Some`, not the number of records scanned. -/
theorem C1_total_eq_extracted (records : List RecordResult) (maxRecords : Option Nat) :
    (runPipeline records maxRecords).totalBarcodedReads
      = ((limitRecords maxRecords records).filter extractsBarcode).length := by
  show totalBarcodedReadsOf
    (sortBarcodes (runLoop (limitRecords maxRecords records)).counts) = _
  rw [totalBarcodedReadsOf,
    ((sortBarcodes_perm (runLoop (limitRecords maxRecords records)).counts).map
      Prod.snd).sum_eq,
    runLoop_counts, foldl_countsStep_sum, filterMap_extractOf_length]
  simp

/-- C2: with the record limit set to `n` the record sequence yields at
most `n` items (decode errors counting toward the cap, since the cap is
applied to the stream of `Except`-valued items), and when `n` is at least
the total record count the run is identical to running with no cap. -/
theorem C2_limit_cap (records : List RecordResult) (n : Nat) :
    (limitRecords (some n) records).length ≤ n
    ∧ (records.length ≤ n →
        runPipeline records (some n) = runPipeline records none) := by
  constructor
  · simp [limitRecords]
  · intro h
    have hl : limitRecords (some n) records = limitRecords none records := by
      simp [limitRecords, List.take_of_length_le h]
    rw [runPipeline, runPipeline, hl]

/-- Witness for C2 at a one-record stream and cap 5. -/
theorem C2_limit_cap_witness :
    (limitRecords (some 5) [recAAAA]).length ≤ 5
    ∧ runPipeline [recAAAA] (some 5) = runPipeline [recAAAA] none :=
  ⟨(C2_limit_cap [recAAAA] 5).1, (C2_limit_cap [recAAAA] 5).2 (by decide)⟩

/-- C4: a per-record decode failure is non-fatal: the loop body reports it
to stderr and changes nothing else, the tally of the remaining records is
unaffected by its presence in the stream, the reports of the surrounding
records are kept, the run still returns `Ok(())`, and the output artifact
is the one of the stream without the failing record. -/
theorem C4_decode_error_nonfatal (pre post : List RecordResult) (e : String)
    (st : LoopState) :
    processRecord st (.error e)
      = ⟨st.counts,
          st.stderrLines ++ ["Error reading BAM/CRAM record: " ++ e ++ ". Skipping."]⟩
    ∧ (runLoop (pre ++ .error e :: post)).counts = (runLoop (pre ++ post)).counts
    ∧ (runLoop (pre ++ .error e :: post)).stderrLines
        = reports pre ++ ["Error reading BAM/CRAM record: " ++ e ++ ". Skipping."]
            ++ reports post
    ∧ (runPipeline (pre ++ .error e :: post) none).exitOk = true
    ∧ (runPipeline (pre ++ .error e :: post) none).artifact
        = (runPipeline (pre ++ post) none).artifact := by
  have hcounts : (runLoop (pre ++ .error e :: post)).counts
      = (runLoop (pre ++ post)).counts := by
    rw [runLoop_counts, runLoop_counts, List.foldl_append, List.foldl_append,
      List.foldl_cons]
    rfl
  refine ⟨?_, hcounts, ?_, rfl, ?_⟩
  · obtain ⟨counts, stderrLines⟩ := st
    rfl
  · rw [runLoop_stderr]
    simp [reports, List.filterMap_append, List.filterMap_cons, reportOf,
      List.append_assoc]
  · show artifactOf (sortBarcodes (runLoop (limitRecords none (pre ++ .error e :: post))).counts)
      = artifactOf (sortBarcodes (runLoop (limitRecords none (pre ++ post))).counts)
    rw [show limitRecords none (pre ++ .error e :: post) = pre ++ .error e :: post from rfl,
      show limitRecords none (pre ++ post) = pre ++ post from rfl, hcounts]

/-- C5: for a decoded record, if the `CB` tag lookup does not return a
string-typed value (absent tag, or any non-string value type), the loop
body leaves the state entirely unchanged — silently, with no report; only
a present, string-typed value bumps the tally, with its exact string.
Extraction returns `Some` exactly for the string-typed case. -/
theorem C5_extraction_policy (st : LoopState) (r : BamRecord) :
    (r.aux "CB" = .error .bamAuxTagNotFound → processRecord st (.ok r) = st)
    ∧ (∀ v, r.aux "CB" = .ok v → (∀ s, v ≠ .string s) →
        processRecord st (.ok r) = st)
    ∧ (∀ s, r.aux "CB" = .ok (.string s) →
        processRecord st (.ok r) = ⟨bumpCount st.counts s, st.stderrLines⟩)
    ∧ (∀ s, extract r "CB" = some s ↔ r.aux "CB" = .ok (.string s)) := by
  refine ⟨?_, ?_, ?_, ?_⟩
  · intro h
    simp [processRecord, h]
  · intro v hv hns
    simp only [processRecord, hv]
    cases v <;> first
      | rfl
      | exact absurd rfl (hns _)
  · intro s hs
    obtain ⟨counts, stderrLines⟩ := st
    simp [processRecord, hs]
  · intro s
    unfold extract
    cases h : r.aux "CB" with
    | ok v => cases v <;> simp
    | error err => simp

/-- Witness for C5: an integer-typed `CB` tag leaves a sample state
unchanged. -/
theorem C5_extraction_policy_witness :
    processRecord ⟨[("AAAA", 2)], []⟩ (.ok recIntCB) = ⟨[("AAAA", 2)], []⟩ :=
  (C5_extraction_policy ⟨[("AAAA", 2)], []⟩ recIntCB).2.1 (.i32 7) rfl
    (fun _ h => AuxValue.noConfusion h)

/-- C3 (counterexample): the value `0` is accepted by `-n`/`--limit`
although it is not a positive integer — `"0".parse::<usize>()` succeeds,
so the program proceeds (with the cap set to 0) instead of exiting with a
usage error. -/
theorem C3_counterexample :
    mainSetup ["prog", "input.bam", "-n", "0"]
      = SetupOutcome.proceed "input.bam" none (some 0) := by
  decide

/-- C3 (amended): the `-n`/`--limit` value must parse as a `usize`
(optional leading `+`, ASCII digits, below `2^64`); zero is accepted and
simply caps the scan at 0 records.  A non-numeric, negative, overflowing
or missing value makes the argument loop stop with a usage error, which
`main` turns into an exit with code 1 before any record is processed. -/
theorem C3_amended (input refFasta : Option String) (maxRecords : Option Nat) :
    (∀ flag v rest, (flag = "-n" ∨ flag = "--limit") → parseUsize v = none →
        parseArgs (flag :: v :: rest) input refFasta maxRecords
          = .usageExit ("Error: --limit value '" ++ v ++
              "' is not a valid positive integer."))
    ∧ (∀ flag, (flag = "-n" ∨ flag = "--limit") →
        parseArgs [flag] input refFasta maxRecords
          = .usageExit "Error: --limit flag requires a number.")
    ∧ (∀ flag v rest n, (flag = "-n" ∨ flag = "--limit") → parseUsize v = some n →
        parseArgs (flag :: v :: rest) input refFasta maxRecords
          = parseArgs rest input refFasta (some n))
    ∧ parseUsize "0" = some 0
    ∧ (∀ argv msg, 2 ≤ argv.length →
        parseArgs argv.tail none none none = .usageExit msg →
        mainSetup argv = .exit1 msg) := by
  refine ⟨?_, ?_, ?_, by decide, ?_⟩
  · rintro flag v rest (rfl | rfl) hv <;> simp [parseArgs, hv]
  · rintro flag (rfl | rfl) <;> simp [parseArgs]
  · rintro flag v rest n (rfl | rfl) hv <;> simp [parseArgs, hv]
  · intro argv msg hlen hp
    rw [mainSetup, if_neg (by omega), hp]

/-- Witness for C3 (amended): a non-numeric value and a missing value each
produce the usage exit. -/
theorem C3_amended_witness :
    parseArgs ["-n", "abc"] none none none
      = ParsedArgs.usageExit "Error: --limit value 'abc' is not a valid positive integer."
    ∧ mainSetup ["prog", "-n"]
      = SetupOutcome.exit1 "Error: --limit flag requires a number." :=
  ⟨(C3_amended none none none).1 "-n" "abc" [] (Or.inl rfl) (by decide),
   (C3_amended none none none).2.2.2.2 ["prog", "-n"] _ (by decide)
     ((C3_amended none none none).2.1 "-n" (Or.inl rfl))⟩

/-- C6: the output artifact is exactly one line per entry of the sorted
tally, each line `<count right-aligned in (at least) 7 columns><space>
<identifier><newline>`; the entries are in strictly ascending identifier
order (hence duplicate-free), and there is an entry for an identifier
exactly when some record of the capped stream extracted it. -/
theorem C6_output_format (records : List RecordResult) (maxRecords : Option Nat) :
    (runPipeline records maxRecords).artifact
      = String.join ((sortedTally records maxRecords).map
          (fun p => padLeft7 (toString p.2) ++ " " ++ p.1 ++ "\n"))
    ∧ List.Pairwise (fun a b : String × Nat => a.1 < b.1)
        (sortedTally records maxRecords)
    ∧ (∀ s, s ∈ (sortedTally records maxRecords).map Prod.fst
        ↔ s ∈ (limitRecords maxRecords records).filterMap extractOf)
    ∧ (runPipeline records maxRecords).uniqueBarcodes
        = (sortedTally records maxRecords).length := by
  have hnodup : ((runLoop (limitRecords maxRecords records)).counts.map Prod.fst).Nodup := by
    rw [runLoop_counts]
    exact foldl_countsStep_nodup _ _ (by simp)
  refine ⟨rfl, ?_, ?_, rfl⟩
  · exact sortBarcodes_strict _ hnodup
  · intro s
    rw [sortedTally]
    have hperm : ((sortBarcodes (runLoop (limitRecords maxRecords records)).counts).map
        Prod.fst).Perm ((runLoop (limitRecords maxRecords records)).counts.map Prod.fst) :=
      (sortBarcodes_perm _).map Prod.fst
    rw [hperm.mem_iff, runLoop_counts, foldl_countsStep_mem]
    simp

/-- C7: at every point during accumulation every key in the tally map has
count at least 1; a fresh identifier is appended with initial count 1, and
every further observation of an identifier increases exactly its count by
1, leaving all other counts unchanged. -/
theorem C7_tally_invariant :
    (∀ records : List RecordResult, ∀ p ∈ (runLoop records).counts, 1 ≤ p.2)
    ∧ (∀ (l : List (String × Nat)) (bc : String),
        bc ∉ l.map Prod.fst → bumpCount l bc = l ++ [(bc, 1)])
    ∧ (∀ (l : List (String × Nat)) (bc k : String),
        countOf (bumpCount l bc) k
          = if k = bc then countOf l bc + 1 else countOf l k) := by
  refine ⟨?_, bumpCount_of_not_mem, countOf_bumpCount⟩
  intro records p hp
  rw [runLoop_counts] at hp
  exact foldl_countsStep_pos records [] (by simp) p hp

/-- Witness for C7 on concrete data: a key of an accumulated tally has a
positive count, a fresh key is appended with count 1, and re-observing a
key bumps its count from 2 to 3. -/
theorem C7_tally_invariant_witness :
    1 ≤ (("AAAA", 2) : String × Nat).2
    ∧ bumpCount [("AAAA", 2)] "CCCC" = [("AAAA", 2)] ++ [("CCCC", 1)]
    ∧ countOf (bumpCount [("AAAA", 2)] "AAAA") "AAAA"
        = if "AAAA" = "AAAA" then countOf [("AAAA", 2)] "AAAA" + 1
          else countOf [("AAAA", 2)] "AAAA" :=
  ⟨C7_tally_invariant.1 [recAAAA, recCCCC, recAAAA] ("AAAA", 2) (by decide),
   C7_tally_invariant.2.1 [("AAAA", 2)] "CCCC" (by decide),
   C7_tally_invariant.2.2 [("AAAA", 2)] "AAAA" "AAAA"⟩

/-- C8 (counterexample): a record whose `CB` auxiliary field is present
but malformed makes the lookup fail with an error that is neither of the
two intentionally-silent cases (it is not tag-absence, and not a
type-mismatch on a decoded value), yet the run swallows it: nothing is
written to stderr, the exit is still successful, and the tally ignores
the record — the catch-all match arm silences every aux-lookup error. -/
theorem C8_counterexample :
    recBadCB.aux "CB" = .error (.other "truncated aux")
    ∧ recBadCB.aux "CB" ≠ .error .bamAuxTagNotFound
    ∧ runPipeline [.ok recBadCB] none = ⟨"", 0, 0, [], true⟩ := by
  refine ⟨rfl, ?_, ?_⟩
  · intro h
    rw [show recBadCB.aux "CB" = Except.error (AuxError.other "truncated aux") from rfl] at h
    exact AuxError.noConfusion (Except.error.inj h)
  · show RunResult.mk _ _ _ _ _ = _
    rw [show (runLoop (limitRecords none [(.ok recBadCB : RecordResult)])).counts = []
        from rfl,
      show (runLoop (limitRecords none [(.ok recBadCB : RecordResult)])).stderrLines = []
        from rfl,
      sortBarcodes_nil]
    rfl

/-- C8 (amended): no error is silently swallowed except the
intentionally-silent auxiliary-lookup cases — tag absence, tag value-type
mismatch, and any other error returned by the `CB` lookup, all discarded
by the loop's catch-all arm: the stderr stream of a run consists of
exactly one report per per-record decode error, successfully decoded
records never produce a report, and the run's exit is unaffected. -/
theorem C8_amended (records : List RecordResult) (maxRecords : Option Nat) :
    (runPipeline records maxRecords).stderrLines
      = reports (limitRecords maxRecords records)
    ∧ (∀ e, reportOf (.error e)
        = some ("Error reading BAM/CRAM record: " ++ e ++ ". Skipping."))
    ∧ (∀ st r, (processRecord st (.ok r)).stderrLines = st.stderrLines)
    ∧ (runPipeline records maxRecords).exitOk = true := by
  refine ⟨?_, fun e => rfl, ?_, rfl⟩
  · show (runLoop (limitRecords maxRecords records)).stderrLines = _
    rw [runLoop_stderr]
  · intro st r
    rw [processRecord_eq]
    simp [reportOf]

/-- C9: the run is a deterministic function of the input stream and the
cap; in particular the output is independent of the (possibly
nondeterministic) iteration order of the hash map — sorting any
permutation of the accumulated tally yields the same sorted tally. -/
theorem C9_deterministic (records₁ records₂ : List RecordResult)
    (max₁ max₂ : Option Nat) (l : List (String × Nat)) :
    (records₁ = records₂ → max₁ = max₂ →
      runPipeline records₁ max₁ = runPipeline records₂ max₂)
    ∧ (l.Perm (runLoop (limitRecords max₁ records₁)).counts →
        sortBarcodes l = sortedTally records₁ max₁) := by
  constructor
  · rintro rfl rfl
    rfl
  · intro hp
    have hnodup : (((runLoop (limitRecords max₁ records₁)).counts.map Prod.fst)).Nodup := by
      rw [runLoop_counts]
      exact foldl_countsStep_nodup _ _ (by simp)
    rw [sortedTally]
    exact sortBarcodes_eq_of_perm l _ hp (((hp.map Prod.fst).nodup_iff).mpr hnodup)

/-- Witness for C9: two identical runs coincide, and sorting the reversed
tally of a concrete run gives the same sorted tally. -/
theorem C9_deterministic_witness :
    runPipeline [recAAAA] none = runPipeline [recAAAA] none
    ∧ sortBarcodes [("CCCC", 1), ("AAAA", 2)]
        = sortedTally [recAAAA, recCCCC, recAAAA] none :=
  ⟨(C9_deterministic [recAAAA] [recAAAA] none none []).1 rfl rfl,
   (C9_deterministic [recAAAA, recCCCC, recAAAA] [] none none
     [("CCCC", 1), ("AAAA", 2)]).2 (by decide)⟩

/-- C10: when no identifier is ever extracted from the capped stream (the
container is empty, the cap is 0, or no record carries a string-typed
`CB` value), the emitted artifact holds zero lines, the summary reports 0
unique identifiers and 0 total occurrences, and the run exits
successfully; only the per-record decode-error reports remain. -/
theorem C10_empty_tally (records : List RecordResult) (maxRecords : Option Nat)
    (h : ∀ rr ∈ limitRecords maxRecords records, extractsBarcode rr = false) :
    runPipeline records maxRecords
      = ⟨"", 0, 0, reports (limitRecords maxRecords records), true⟩ := by
  have hnone : ∀ rr ∈ limitRecords maxRecords records, extractOf rr = none := by
    intro rr hm
    have hb := h rr hm
    rw [extractsBarcode_eq] at hb
    cases hx : extractOf rr with
    | none => rfl
    | some s => rw [hx] at hb; simp at hb
  have hc : (runLoop (limitRecords maxRecords records)).counts = [] := by
    rw [runLoop_counts]
    exact foldl_countsStep_of_none _ _ hnone
  show RunResult.mk _ _ _ _ _ = _
  rw [hc, runLoop_stderr, sortBarcodes_nil]
  rfl

/-- Witness for C10: a cap of 0 on a non-empty container still produces
the (empty) artifact, zero summary counts and a successful exit. -/
theorem C10_empty_tally_witness :
    runPipeline [recAAAA] (some 0) = ⟨"", 0, 0, [], true⟩ :=
  C10_empty_tally [recAAAA] (some 0) (by decide)

end ReadCounter
